import Mathlib

/-!
# Verification of the Monoscope video-to-ASCII renderer (`main.go`)

This file gives a shallow embedding of the functions of `main.go` and proves
the specification's claims about them.

* `getTerminalSize` — terminal geometry resolver with a fixed fallback.
* `readRawFrame` / `readRawFrameLoop` — the accumulate-until-full frame
  deserializer reading `width*height*3` bytes from a chunked byte stream.
* `fl` — IEEE-754 binary64 round-to-nearest-even on the normal range,
  modelled over `ℚ`; Go's `float64` arithmetic in the brightness pipeline is
  embedded as exact rational operations followed by `fl`.
* `brightnessToASCII`, `frameToASCII` — the glyph renderer.
* `loopEvents` / `playLoop` — the playback loop's control flow and the
  resource events (alternate screen, cursor, decoder kill) it emits on each
  exit path.
-/

namespace Monoscope

/-! ## Geometry resolver

`getTerminalSize` (main.go:21-27). The `term.GetSize` query is modelled as an
`Option (Int × Int)`: `none` when the query returns an error, `some (w, h)`
when it succeeds. On error the fixed default `(160, 50)` is returned; on
success two rows are reserved for the status line. -/

def getTerminalSize (query : Option (Int × Int)) : Int × Int :=
  match query with
  | none => (160, 50)
  | some (w, h) => (w, h - 2)

/-! ## Frame deserializer

`readRawFrame` (main.go:62-83). The underlying `bufio.Reader` is modelled as
a finite list of read results consumed in order; each `ReadResult` is the
pair returned by one call to `reader.Read(data[n:])`: the bytes it delivered
(capped by the request size, hence the `List.take` below) and its error
value. An exhausted list models a reader that keeps reporting end of stream,
which the Go code surfaces as an error. -/

structure ReadResult where
  bytes : List Nat
  err : Option String
deriving Repr, DecidableEq

/-- One pixel of the `image.RGBA` produced by `readRawFrame`; channel values
are bytes `0..255`. -/
structure RGBA where
  r : Nat
  g : Nat
  b : Nat
  a : Nat
deriving Repr, DecidableEq

/-- The accumulation loop of `readRawFrame` (main.go:66-73): while fewer than
`need` bytes have been accumulated, issue a read; if the read reports an
error, return that error, discarding everything accumulated (including the
bytes delivered by the erroring read itself); otherwise append the delivered
bytes and continue. -/
def readRawFrameLoop (reads : List ReadResult) (need : Nat) (acc : List Nat) :
    Except String (List Nat) :=
  if need = 0 then .ok acc
  else
    match reads with
    | [] => .error "EOF"
    | r :: rest =>
      match r.err with
      | some e => .error e
      | none =>
        let d := r.bytes.take need
        readRawFrameLoop rest (need - d.length) (acc ++ d)

/-- The pixel-grid construction of `readRawFrame` (main.go:75-81): byte
`data[3*(y*width+x) + c]` becomes channel `c` of pixel `(x, y)`, with alpha
255. -/
def rawFrameToGrid (data : List Nat) (width height : Nat) : List (List RGBA) :=
  (List.range height).map fun y =>
    (List.range width).map fun x =>
      { r := data.getD (3 * (y * width + x)) 0
        g := data.getD (3 * (y * width + x) + 1) 0
        b := data.getD (3 * (y * width + x) + 2) 0
        a := 255 }

/-- `readRawFrame` (main.go:62-83): accumulate exactly `width*height*3` bytes
from the stream, then reassemble them into the row-major pixel grid. -/
def readRawFrame (reads : List ReadResult) (width height : Nat) :
    Except String (List (List RGBA)) :=
  (readRawFrameLoop reads (width * height * 3) []).map
    fun data => rawFrameToGrid data width height

/-- A stream that delivers the bytes of `s` one byte per read, error-free. -/
def oneBytePerRead (s : List Nat) : List ReadResult :=
  s.map fun b => { bytes := [b], err := none }

/-- A stream that delivers all bytes of `s` in a single read, error-free. -/
def singleRead (s : List Nat) : List ReadResult :=
  [{ bytes := s, err := none }]

/-! ## IEEE-754 binary64 arithmetic over `ℚ`

Go's `float64` operations in the brightness pipeline are embedded as the
exact rational operation followed by `fl`, the IEEE-754 round-to-nearest,
ties-to-even rounding to 53 significant bits. `fl` is faithful to binary64
on the positive normal range `[2^(-64), 2^64]` covered by every intermediate
value of the pipeline (the least positive intermediate is about `0.000447`,
the greatest about `255.001`), and maps `0` to `0` exactly. -/

/-- Floor of a nonnegative rational, computed with `Nat` division so that it
evaluates by kernel reduction. -/
def ratFloorNonneg (q : ℚ) : ℤ :=
  (q.num.toNat / q.den : ℕ)

/-- Round a nonnegative rational to the nearest integer, ties to even. -/
def rhe (q : ℚ) : ℤ :=
  let f := ratFloorNonneg q
  if q - (f : ℚ) < 1 / 2 then f
  else if (1 : ℚ) / 2 < q - (f : ℚ) then f + 1
  else if f % 2 = 0 then f else f + 1

/-- Largest `n ≤ fuel` with `2 ^ n ≤ q`, or `0` when there is none. -/
def natFloorLog2 : ℕ → ℚ → ℕ
  | 0, _ => 0
  | f + 1, q => if (2 : ℚ) ^ (f + 1) ≤ q then f + 1 else natFloorLog2 f q

/-- Binary64 rounding on `ℚ`: for `q` in the positive range, the binade
exponent is `e = natFloorLog2 128 (q·2^64) - 64` and the unit in the last
place is `2^(e-52) = 2^n / 2^116`; `q` is rounded to the nearest multiple of
that ulp, ties to even. Nonpositive inputs map to `0` (in the pipeline this
is only used at exactly `0`, which binary64 represents exactly). -/
def fl (q : ℚ) : ℚ :=
  if q ≤ 0 then 0
  else
    let n := natFloorLog2 128 (q * 2 ^ 64)
    (rhe (q * 2 ^ 116 / 2 ^ n) : ℚ) * 2 ^ n / 2 ^ 116

/-- Go float64 multiplication: exact product, then binary64 rounding. -/
def goMul (x y : ℚ) : ℚ := fl (x * y)

/-- Go float64 addition: exact sum, then binary64 rounding. -/
def goAdd (x y : ℚ) : ℚ := fl (x + y)

/-- Go float64 division: exact quotient, then binary64 rounding. -/
def goDiv (x y : ℚ) : ℚ := fl (x / y)

/-- Go's `int(x)` conversion from float64: truncation toward zero. -/
def goTruncToInt (q : ℚ) : ℤ :=
  if q < 0 then -ratFloorNonneg (-q) else ratFloorNonneg q

/-- The float64 value of the Go literal `0.299` (rounded at compile time). -/
def c0299 : ℚ := fl (299 / 1000)

/-- The float64 value of the Go literal `0.587`. -/
def c0587 : ℚ := fl (587 / 1000)

/-- The float64 value of the Go literal `0.114`. -/
def c0114 : ℚ := fl (114 / 1000)

/-! ## Glyph renderer -/

/-- The glyph gradient `" .:-=+*#%@"` (main.go:17), 10 characters of
increasing visual density. -/
def ASCII_CHARS : List Char :=
  [' ', '.', ':', '-', '=', '+', '*', '#', '%', '@']

/-- The brightness computation of `frameToASCII` (main.go:51):
`(0.299*r8 + 0.587*g8 + 0.114*b8) / 255.0` under float64 evaluation,
left-to-right: `((0.299*r8 + 0.587*g8) + 0.114*b8) / 255.0`. -/
def brightness (r8 g8 b8 : Nat) : ℚ :=
  goDiv (goAdd (goAdd (goMul c0299 r8) (goMul c0587 g8)) (goMul c0114 b8)) 255

/-- The glyph index of `brightnessToASCII` (main.go:34-37):
`idx := int(brightness * 9)`, then `if idx >= 10 { idx = 9 }`. -/
def glyphIndex (brightness : ℚ) : ℤ :=
  let idx := goTruncToInt (goMul brightness 9)
  if 10 ≤ idx then 9 else idx

/-- `brightnessToASCII` (main.go:33-39): `ASCII_CHARS[idx]`. `none` models
the index-out-of-range panic Go would raise at a negative index; the clamp
already rules out indices `≥ 10`. -/
def brightnessToASCII (brightness : ℚ) : Option Char :=
  let idx := glyphIndex brightness
  if idx < 0 then none else some (ASCII_CHARS.getD idx.toNat ' ')

/-- `rgbToAnsi` (main.go:29-31): the 24-bit foreground color escape. -/
def rgbToAnsi (r g b : Nat) : String :=
  "\x1b[38;2;" ++ toString r ++ ";" ++ toString g ++ ";" ++ toString b ++ "m"

/-- The `image.Image` interface as `frameToASCII` uses it: bounds
`(0,0)-(width,height)` (as produced by `readRawFrame`) and a pixel lookup. -/
structure GoImage where
  width : Nat
  height : Nat
  pix : Nat → Nat → RGBA

/-- `c.RGBA()` followed by `uint8(v >> 8)` (main.go:48-49): `color.RGBA`
with alpha 255 reports each 16-bit channel as `v * 0x101`, and the shift and
`uint8` conversion recover `v mod 256`. -/
def channelTo8 (v : Nat) : Nat :=
  v * 257 / 256 % 256

/-- The per-pixel output of `frameToASCII` (main.go:47-55): the color escape
for the pixel's 8-bit channels followed by the luminance-ranked glyph. -/
def pixelString (p : RGBA) : Option String :=
  let r8 := channelTo8 p.r
  let g8 := channelTo8 p.g
  let b8 := channelTo8 p.b
  (brightnessToASCII (brightness r8 g8 b8)).map fun ch =>
    rgbToAnsi r8 g8 b8 ++ ch.toString

/-- One row of `frameToASCII` (main.go:46-57): the pixel strings for
`x = 0, …, width-1`, then the color reset and newline. -/
def rowString (img : GoImage) (y : Nat) : Option String :=
  ((List.range img.width).foldl
      (fun acc x => do
        let s ← acc
        let ps ← pixelString (img.pix x y)
        pure (s ++ ps))
      (some "")).map
    fun s => s ++ "\x1b[0m\n"

/-- `frameToASCII` (main.go:41-60): the concatenation of the row strings for
`y = 0, …, height-1`. -/
def frameToASCII (img : GoImage) : Option String :=
  (List.range img.height).foldl
    (fun acc y => do
      let s ← acc
      let row ← rowString img y
      pure (s ++ row))
    (some "")

/-! ## Playback loop

The `for` loop of `main` (main.go:139-164) and the code around it
(main.go:131-170). The sequence of `readRawFrame` outcomes the loop would
observe is modelled as a list of `Except` values; since the decoder stream
always eventually reports an error (end of stream), a run is modelled as a
list of successfully read frames followed by one error. -/

/-- The observable outcome of one playback run. -/
structure PlayOutcome where
  exitCode : Nat
  framesRendered : Nat
  /-- The frame count reported by the completion summary, when one is
  printed (main.go:167). -/
  summaryFrames : Option Nat
  /-- Whether the fatal "Could not read any frames" report was issued
  (main.go:146). -/
  noFramesError : Bool
  /-- Whether the alternate screen buffer was exited and the cursor re-shown
  before the process ended. -/
  surfaceRestored : Bool
deriving Repr, DecidableEq

/-- The playback loop (main.go:139-164) as a function of the remaining read
outcomes and the current `frameCount`. `none` means the loop has not yet
terminated after consuming the whole list. On a read error with
`frameCount == 0` the code restores the surface, reports the fatal error and
exits with code 1 (main.go:144-148); on a read error after `N > 0` frames it
breaks, prints the completion summary with `N`, waits for Enter, and returns
normally — exit code 0, deferred restore executed (main.go:149, 166-170). -/
def playLoop : List (Except String (List (List RGBA))) → Nat → Option PlayOutcome
  | [], _ => none
  | .error _ :: _, 0 =>
    some { exitCode := 1, framesRendered := 0, summaryFrames := none
           noFramesError := true, surfaceRestored := true }
  | .error _ :: _, n + 1 =>
    some { exitCode := 0, framesRendered := n + 1, summaryFrames := some (n + 1)
           noFramesError := false, surfaceRestored := true }
  | .ok _ :: rest, n => playLoop rest (n + 1)

/-- Resource-relevant events emitted on the way to process termination. -/
inductive TermEvent
  | enterAltScreen
  | hideCursor
  | renderFrame
  | statusLine
  /-- `"\x1b[?1049l\x1b[?25h"`: exit the alternate screen, show cursor. -/
  | restoreScreen
  /-- `cmd.Process.Kill()` on the decoder subprocess. -/
  | killDecoder
  | summaryMsg
  | noFramesMsg
  | waitEnter
  | exitProcess (code : Nat)
deriving Repr, DecidableEq

/-- The events emitted by the playback loop and the code after it, as a
function of the remaining read outcomes and the current `frameCount`.
On the first-read failure path, `fmt.Print` of the restore sequence, the
error report, and `os.Exit(1)` — and `os.Exit` runs no deferred functions,
so `killDecoder` is absent (main.go:144-148, 118). On the normal path after
`break`: summary, `Scanln`, then `main` returns and the deferred functions
run last-registered-first — the restore (main.go:132-135), then the decoder
kill (main.go:118) — and the process exits with code 0. -/
def loopEvents : List (Except String (List (List RGBA))) → Nat → List TermEvent
  | [], _ => []
  | .error _ :: _, 0 =>
    [.restoreScreen, .noFramesMsg, .exitProcess 1]
  | .error _ :: _, _ + 1 =>
    [.summaryMsg, .waitEnter, .restoreScreen, .killDecoder, .exitProcess 0]
  | .ok _ :: rest, n => .renderFrame :: .statusLine :: loopEvents rest (n + 1)

/-- The event trace of a whole run of `main` after the decoder subprocess
has started, for a stream that yields the frames `fs` and then the error
`e`: enter the alternate screen and hide the cursor (main.go:131), then run
the loop. -/
def mainEvents (fs : List (List (List RGBA))) (e : String) : List TermEvent :=
  .enterAltScreen :: .hideCursor :: loopEvents (fs.map .ok ++ [.error e]) 0

/-! ## Lemmas about the frame deserializer -/

theorem readRawFrameLoop_oneByte (s : List Nat) :
    ∀ (need : Nat) (acc : List Nat), need ≤ s.length →
      readRawFrameLoop (oneBytePerRead s) need acc = .ok (acc ++ s.take need) := by
  induction s with
  | nil =>
    intro need acc h
    have hn : need = 0 := by simpa using h
    subst hn
    simp [readRawFrameLoop]
  | cons b t ih =>
    intro need acc h
    match need with
    | 0 => simp [readRawFrameLoop]
    | k + 1 =>
      have hstep : readRawFrameLoop (oneBytePerRead (b :: t)) (k + 1) acc
          = readRawFrameLoop (oneBytePerRead t) k (acc ++ [b]) := by
        simp [oneBytePerRead, readRawFrameLoop]
      rw [hstep, ih k (acc ++ [b]) (by simp only [List.length_cons] at h; omega)]
      simp [List.take_succ_cons]

theorem readRawFrameLoop_single (s : List Nat) (need : Nat) (acc : List Nat)
    (h : need ≤ s.length) :
    readRawFrameLoop (singleRead s) need acc = .ok (acc ++ s.take need) := by
  match need with
  | 0 => simp [readRawFrameLoop]
  | k + 1 =>
    have hlen : (s.take (k + 1)).length = k + 1 := by
      simp [List.length_take, Nat.min_eq_left h]
    simp [singleRead, readRawFrameLoop, hlen]

theorem readRawFrameLoop_error (pre : List (List Nat)) (bytes : List Nat) (e : String)
    (post : List ReadResult) :
    ∀ (need : Nat) (acc : List Nat), (pre.map List.length).sum < need →
      readRawFrameLoop
        (pre.map (fun c => { bytes := c, err := none }) ++
          { bytes := bytes, err := some e } :: post) need acc = .error e := by
  induction pre with
  | nil =>
    intro need acc h
    match need with
    | k + 1 => simp [readRawFrameLoop]
  | cons c t ih =>
    intro need acc h
    simp only [List.map_cons, List.sum_cons] at h
    match need with
    | k + 1 =>
      have hc : c.length ≤ k := by omega
      simp only [List.map_cons, List.cons_append, readRawFrameLoop]
      rw [List.take_of_length_le (by omega)]
      exact ih (k + 1 - c.length) (acc ++ c) (by omega)

/-! ## Lemmas about the playback loop -/

theorem playLoop_consume_oks (fs : List (List (List RGBA))) :
    ∀ (rest : List (Except String (List (List RGBA)))) (c : Nat),
      playLoop (fs.map .ok ++ rest) c = playLoop rest (c + fs.length) := by
  induction fs with
  | nil => intro rest c; simp
  | cons f t ih =>
    intro rest c
    have hstep : playLoop ((f :: t).map .ok ++ rest) c
        = playLoop (t.map .ok ++ rest) (c + 1) := rfl
    rw [hstep, ih rest (c + 1)]
    congr 1
    simp only [List.length_cons]
    omega

theorem loopEvents_mem (fs : List (List (List RGBA))) (e : String) :
    ∀ c : Nat,
      TermEvent.restoreScreen ∈ loopEvents (fs.map .ok ++ [.error e]) c ∧
        (TermEvent.killDecoder ∈ loopEvents (fs.map .ok ++ [.error e]) c ↔
          0 < c + fs.length) := by
  induction fs with
  | nil =>
    intro c
    match c with
    | 0 => simp [loopEvents]
    | k + 1 => simp [loopEvents]
  | cons f t ih =>
    intro c
    have h := ih (c + 1)
    have hstep : loopEvents ((f :: t).map .ok ++ [.error e]) c
        = .renderFrame :: .statusLine :: loopEvents (t.map .ok ++ [.error e]) (c + 1) := rfl
    rw [hstep]
    simp only [List.mem_cons, List.length_cons]
    constructor
    · exact Or.inr (Or.inr h.1)
    · constructor
      · intro _; omega
      · intro _; exact Or.inr (Or.inr (h.2.mpr (by omega)))

/-! ## Claim theorems: deserializer, playback loop, geometry -/

/-- C1: for every geometry (width > 0, height > 0) and every byte stream
carrying at least `width*height*3` bytes, `readRawFrame` accumulates exactly
`width*height*3` bytes before returning a frame, and delivery one byte per
read and delivery in a single read both yield the identical row-major pixel
grid. -/
theorem readRawFrame_chunking_independent (width height : Nat) (s : List Nat)
    (hw : 0 < width) (hh : 0 < height) (hs : width * height * 3 ≤ s.length) :
    readRawFrame (oneBytePerRead s) width height
        = .ok (rawFrameToGrid (s.take (width * height * 3)) width height) ∧
      readRawFrame (singleRead s) width height
        = .ok (rawFrameToGrid (s.take (width * height * 3)) width height) ∧
      (s.take (width * height * 3)).length = width * height * 3 := by
  refine ⟨?_, ?_, ?_⟩
  · unfold readRawFrame
    rw [readRawFrameLoop_oneByte s _ [] hs]
    rfl
  · unfold readRawFrame
    rw [readRawFrameLoop_single s _ [] hs]
    rfl
  · simp [List.length_take, Nat.min_eq_left hs]

/-- Witness for C1 at width 2, height 1 and a 7-byte stream. -/
theorem readRawFrame_chunking_independent_witness :
    readRawFrame (oneBytePerRead [10, 20, 30, 40, 50, 60, 70]) 2 1
        = .ok (rawFrameToGrid ([10, 20, 30, 40, 50, 60, 70].take (2 * 1 * 3)) 2 1) ∧
      readRawFrame (singleRead [10, 20, 30, 40, 50, 60, 70]) 2 1
        = .ok (rawFrameToGrid ([10, 20, 30, 40, 50, 60, 70].take (2 * 1 * 3)) 2 1) ∧
      ([10, 20, 30, 40, 50, 60, 70].take (2 * 1 * 3)).length = 2 * 1 * 3 :=
  readRawFrame_chunking_independent 2 1 [10, 20, 30, 40, 50, 60, 70]
    (by decide) (by decide) (by decide)

/-- C9: whenever a read returns an error before the buffer was already full,
`readRawFrame` returns that error and discards all bytes accumulated so far —
even when that same read delivered bytes (`bytes` is arbitrary, including
bytes that would complete the `width*height*3` buffer), so no partially
filled frame is ever returned. -/
theorem readRawFrame_error_discards_bytes (width height : Nat)
    (pre : List (List Nat)) (bytes : List Nat) (e : String) (post : List ReadResult)
    (h : (pre.map List.length).sum < width * height * 3) :
    readRawFrame
        (pre.map (fun c => { bytes := c, err := none }) ++
          { bytes := bytes, err := some e } :: post) width height = .error e := by
  unfold readRawFrame
  rw [readRawFrameLoop_error pre bytes e post _ [] h]
  rfl

/-- Witness for C9 at a 1×1 frame: two bytes arrive cleanly, then a read
delivers the third, frame-completing byte together with an error; the frame
is still rejected. -/
theorem readRawFrame_error_discards_bytes_witness :
    readRawFrame
        ([[1, 2]].map (fun c => { bytes := c, err := none }) ++
          { bytes := [3], err := some "decoder failed" } :: []) 1 1
      = .error "decoder failed" :=
  readRawFrame_error_discards_bytes 1 1 [[1, 2]] [3] "decoder failed" []
    (by decide)

/-- C3: the playback loop distinguishes end-of-stream on the very first read
from end-of-stream after `N > 0` frames: with no frames, it reports the
fatal no-frames error, restores the surface, renders nothing overall and
exits with code 1; after `N > 0` frames it stops without error, reports a
completion summary carrying `N`, and the process exits with code 0. -/
theorem playLoop_first_read_vs_late_eos (fs : List (List (List RGBA))) (e : String) :
    (fs = [] →
      playLoop (fs.map .ok ++ [.error e]) 0 =
        some { exitCode := 1, framesRendered := 0, summaryFrames := none
               noFramesError := true, surfaceRestored := true }) ∧
    (fs ≠ [] →
      playLoop (fs.map .ok ++ [.error e]) 0 =
        some { exitCode := 0, framesRendered := fs.length
               summaryFrames := some fs.length
               noFramesError := false, surfaceRestored := true }) := by
  constructor
  · rintro rfl
    simp [playLoop]
  · intro hne
    match fs, hne with
    | f :: t, _ =>
      rw [playLoop_consume_oks (f :: t) [.error e] 0]
      simp [playLoop]

/-- Witness for C3: the zero-frame stream exits 1 with the fatal report; a
one-frame stream exits 0 with summary count 1. -/
theorem playLoop_first_read_vs_late_eos_witness :
    playLoop (([] : List (List (List RGBA))).map .ok ++ [.error "EOF"]) 0 =
        some { exitCode := 1, framesRendered := 0, summaryFrames := none
               noFramesError := true, surfaceRestored := true } ∧
      playLoop ([[[⟨0, 0, 0, 255⟩]]].map .ok ++ [.error "EOF"]) 0 =
        some { exitCode := 0, framesRendered := 1, summaryFrames := some 1
               noFramesError := false, surfaceRestored := true } :=
  ⟨(playLoop_first_read_vs_late_eos [] "EOF").1 rfl,
    (playLoop_first_read_vs_late_eos [[[⟨0, 0, 0, 255⟩]]] "EOF").2 (by simp)⟩

/-- C4 counterexample: on the zero-frames fatal path the process terminates
(after having entered the alternate screen) without ever killing the decoder
subprocess — `os.Exit(1)` bypasses the deferred `cmd.Process.Kill` — so the
claim that the decoder is terminated on every exit path fails. -/
theorem mainEvents_zero_frames_skips_kill :
    TermEvent.enterAltScreen ∈ mainEvents [] "EOF" ∧
      TermEvent.exitProcess 1 ∈ mainEvents [] "EOF" ∧
      TermEvent.killDecoder ∉ mainEvents [] "EOF" := by
  decide

/-- C4 amended: the surface restore is emitted on both modelled exit paths
of the loop (explicitly on the zero-frames fatal path, via the deferred
function on the normal path), and the decoder kill runs on the normal path
but is skipped on the zero-frames path; interrupt delivery is outside this
sequential model, and the program installs no signal handler. -/
theorem mainEvents_restore_always_kill_normal (fs : List (List (List RGBA)))
    (e : String) :
    TermEvent.restoreScreen ∈ mainEvents fs e ∧
      (fs ≠ [] → TermEvent.killDecoder ∈ mainEvents fs e) ∧
      (fs = [] → TermEvent.killDecoder ∉ mainEvents fs e) := by
  have h := loopEvents_mem fs e 0
  refine ⟨?_, ?_, ?_⟩
  · exact List.mem_cons_of_mem _ (List.mem_cons_of_mem _ h.1)
  · intro hne
    refine List.mem_cons_of_mem _ (List.mem_cons_of_mem _ (h.2.mpr ?_))
    cases fs with
    | nil => exact absurd rfl hne
    | cons f t => simp
  · rintro rfl
    simp [mainEvents, loopEvents]

/-- Witness for C4 amended: with one frame both restore and kill occur; with
zero frames the kill is absent. -/
theorem mainEvents_restore_always_kill_normal_witness :
    TermEvent.restoreScreen ∈ mainEvents [[[⟨9, 9, 9, 255⟩]]] "EOF" ∧
      TermEvent.killDecoder ∈ mainEvents [[[⟨9, 9, 9, 255⟩]]] "EOF" ∧
      TermEvent.killDecoder ∉ mainEvents [] "EOF" :=
  ⟨(mainEvents_restore_always_kill_normal [[[⟨9, 9, 9, 255⟩]]] "EOF").1,
    (mainEvents_restore_always_kill_normal [[[⟨9, 9, 9, 255⟩]]] "EOF").2.1 (by simp),
    (mainEvents_restore_always_kill_normal [] "EOF").2.2 rfl⟩

/-- C8: the geometry resolver returns the fixed default 160×50 whenever the
terminal size query fails, and on success reserves a fixed 2-row margin,
returning `(width, height - 2)`. -/
theorem getTerminalSize_fallback_and_margin :
    getTerminalSize none = (160, 50) ∧
      ∀ w h : Int, getTerminalSize (some (w, h)) = (w, h - 2) :=
  ⟨rfl, fun _ _ => rfl⟩

/-- C10: `getTerminalSize` applies no lower bound on success: a reported
height of 2 or less yields a zero or negative height; only the failure-path
fallback `(160, 50)` is guaranteed positive, and the fallback is not reduced
by the 2-row margin. -/
theorem getTerminalSize_no_lower_bound :
    (∀ w h : Int, h ≤ 2 → (getTerminalSize (some (w, h))).2 ≤ 0) ∧
      0 < (getTerminalSize none).1 ∧ 0 < (getTerminalSize none).2 ∧
      getTerminalSize none = (160, 50) := by
  refine ⟨?_, by norm_num [getTerminalSize], by norm_num [getTerminalSize], rfl⟩
  intro w h hh
  simp only [getTerminalSize]
  omega

/-- Witness for C10 at a reported terminal size of 80×2. -/
theorem getTerminalSize_no_lower_bound_witness :
    (getTerminalSize (some (80, 2))).2 ≤ 0 ∧ getTerminalSize none = (160, 50) :=
  ⟨getTerminalSize_no_lower_bound.1 80 2 (by decide),
    getTerminalSize_no_lower_bound.2.2.2⟩

/-! ## Lemmas about binary64 rounding -/

theorem ratFloorNonneg_eq_floor (q : ℚ) (hq : 0 ≤ q) : ratFloorNonneg q = ⌊q⌋ := by
  have hnum : 0 ≤ q.num := Rat.num_nonneg.mpr hq
  have hden : 0 < q.den := q.den_pos
  obtain ⟨N, hN⟩ : ∃ N : ℕ, q.num = (N : ℤ) :=
    ⟨q.num.toNat, (Int.toNat_of_nonneg hnum).symm⟩
  obtain ⟨D, hD⟩ : ∃ D : ℕ, q.den = D := ⟨q.den, rfl⟩
  have hDpos : 0 < D := hD ▸ hden
  have hqe : q = (N : ℚ) / (D : ℚ) := by
    have h0 := Rat.num_div_den q
    rw [hN, hD] at h0
    push_cast at h0
    exact h0.symm
  have hfl : ratFloorNonneg q = ((N / D : ℕ) : ℤ) := by
    unfold ratFloorNonneg
    rw [hN, hD]
    simp
  rw [hfl, show ⌊q⌋ = ⌊(N : ℚ) / (D : ℚ)⌋ from by rw [← hqe]]
  symm
  rw [Int.floor_eq_iff]
  constructor
  · rw [le_div_iff (by exact_mod_cast hDpos)]
    exact_mod_cast Nat.div_mul_le_self N D
  · rw [div_lt_iff (by exact_mod_cast hDpos)]
    have h3 : D * (N / D) + N % D = N := Nat.div_add_mod _ _
    have h4 : N % D < D := Nat.mod_lt _ hDpos
    have h5 : N < (N / D + 1) * D := by
      calc N < D * (N / D) + D := by omega
        _ = (N / D + 1) * D := by ring
    exact_mod_cast h5

theorem rhe_eq_floor (q : ℚ) (hq : 0 ≤ q) :
    rhe q =
      if q - (⌊q⌋ : ℚ) < 1 / 2 then ⌊q⌋
      else if (1 : ℚ) / 2 < q - (⌊q⌋ : ℚ) then ⌊q⌋ + 1
      else if ⌊q⌋ % 2 = 0 then ⌊q⌋ else ⌊q⌋ + 1 := by
  unfold rhe
  rw [ratFloorNonneg_eq_floor q hq]

theorem floor_le_rhe (q : ℚ) (hq : 0 ≤ q) : ⌊q⌋ ≤ rhe q := by
  rw [rhe_eq_floor q hq]
  split_ifs <;> omega

theorem rhe_le_floor_add_one (q : ℚ) (hq : 0 ≤ q) : rhe q ≤ ⌊q⌋ + 1 := by
  rw [rhe_eq_floor q hq]
  split_ifs <;> omega

theorem rhe_le_of_lt (q : ℚ) (hq : 0 ≤ q) {m : ℤ} (h : q < (m : ℚ)) : rhe q ≤ m := by
  have h1 : ⌊q⌋ < m := Int.floor_lt.mpr h
  have h2 := rhe_le_floor_add_one q hq
  omega

theorem le_rhe_of_le (q : ℚ) (hq : 0 ≤ q) {m : ℤ} (h : (m : ℚ) ≤ q) : m ≤ rhe q :=
  le_trans (Int.le_floor.mpr h) (floor_le_rhe q hq)

theorem rhe_nonneg (q : ℚ) (hq : 0 ≤ q) : 0 ≤ rhe q :=
  le_rhe_of_le q hq (by exact_mod_cast hq)

theorem rhe_mono (x y : ℚ) (hx : 0 ≤ x) (hxy : x ≤ y) : rhe x ≤ rhe y := by
  have hy : 0 ≤ y := le_trans hx hxy
  have hf : ⌊x⌋ ≤ ⌊y⌋ := Int.floor_le_floor hxy
  rcases lt_or_eq_of_le hf with hlt | heq
  · calc rhe x ≤ ⌊x⌋ + 1 := rhe_le_floor_add_one x hx
      _ ≤ ⌊y⌋ := by omega
      _ ≤ rhe y := floor_le_rhe y hy
  · have hfx : (⌊x⌋ : ℚ) ≤ x := Int.floor_le x
    have hxf : x < ⌊x⌋ + 1 := Int.lt_floor_add_one x
    have hyf : y < (⌊y⌋ : ℚ) + 1 := Int.lt_floor_add_one y
    rw [rhe_eq_floor x hx, rhe_eq_floor y hy, ← heq]
    have hd : x - (⌊x⌋ : ℚ) ≤ y - (⌊x⌋ : ℚ) := by linarith
    split_ifs with h1 h2 h3 h4 h5 h6 h7 <;> try omega
    all_goals
      first
        | linarith
        | (exfalso; rw [← heq] at *; linarith)

/-! ## Lemmas about `natFloorLog2` -/

theorem natFloorLog2_le (fuel : ℕ) (q : ℚ) : natFloorLog2 fuel q ≤ fuel := by
  induction fuel with
  | zero => simp [natFloorLog2]
  | succ f ih =>
    simp only [natFloorLog2]
    split_ifs
    · exact le_refl _
    · exact le_trans ih (by omega)

theorem pow_natFloorLog2_le (fuel : ℕ) (q : ℚ) (h : 0 < natFloorLog2 fuel q) :
    (2 : ℚ) ^ natFloorLog2 fuel q ≤ q := by
  induction fuel with
  | zero => simp [natFloorLog2] at h
  | succ f ih =>
    simp only [natFloorLog2] at h ⊢
    split_ifs with hif
    · exact hif
    · rw [if_neg hif] at h
      exact ih h

theorem lt_pow_natFloorLog2_succ (fuel : ℕ) (q : ℚ) (hq : q < 2 ^ (fuel + 1)) :
    q < 2 ^ (natFloorLog2 fuel q + 1) := by
  induction fuel with
  | zero => simpa [natFloorLog2] using hq
  | succ f ih =>
    simp only [natFloorLog2]
    split_ifs with hif
    · exact hq
    · exact ih (lt_of_not_le hif)

theorem natFloorLog2_mono (fuel : ℕ) {x y : ℚ} (hxy : x ≤ y) :
    natFloorLog2 fuel x ≤ natFloorLog2 fuel y := by
  induction fuel with
  | zero => simp [natFloorLog2]
  | succ f ih =>
    simp only [natFloorLog2]
    split_ifs with h1 h2 h2
    · exact le_refl _
    · exact absurd (le_trans h1 hxy) h2
    · exact le_trans (natFloorLog2_le f x) (by omega)
    · exact ih

/-! ## Lemmas about `fl` -/

theorem fl_nonneg (q : ℚ) : 0 ≤ fl q := by
  unfold fl
  split_ifs with h
  · exact le_refl 0
  · push_neg at h
    set n := natFloorLog2 128 (q * 2 ^ 64)
    have hs : 0 ≤ q * 2 ^ 116 / 2 ^ n := by positivity
    have h1 : (0 : ℤ) ≤ rhe (q * 2 ^ 116 / 2 ^ n) := rhe_nonneg _ hs
    have h1q : (0 : ℚ) ≤ (rhe (q * 2 ^ 116 / 2 ^ n) : ℚ) := by exact_mod_cast h1
    positivity

theorem fl_of_nonpos {q : ℚ} (h : q ≤ 0) : fl q = 0 := by
  unfold fl
  rw [if_pos h]

theorem fl_mono {x y : ℚ} (hx : 0 ≤ x) (hxy : x ≤ y) (hy : y ≤ 2 ^ 64) :
    fl x ≤ fl y := by
  by_cases hx0 : x ≤ 0
  · rw [fl_of_nonpos hx0]
    exact fl_nonneg y
  · push_neg at hx0
    have hy0 : ¬ y ≤ 0 := by linarith
    unfold fl
    rw [if_neg (not_le.mpr hx0), if_neg hy0]
    set nx := natFloorLog2 128 (x * 2 ^ 64) with hnx
    set ny := natFloorLog2 128 (y * 2 ^ 64) with hny
    have hmono : nx ≤ ny := natFloorLog2_mono 128 (by nlinarith)
    rcases eq_or_lt_of_le hmono with heq | hlt
    · rw [← heq]
      have hsx : 0 ≤ x * 2 ^ 116 / 2 ^ nx := by positivity
      have hss : x * 2 ^ 116 / 2 ^ nx ≤ y * 2 ^ 116 / 2 ^ nx := by
        apply div_le_div_of_nonneg_right ?_ (by positivity)
        nlinarith
      have h := rhe_mono _ _ hsx hss
      have hq : (rhe (x * 2 ^ 116 / 2 ^ nx) : ℚ) ≤ (rhe (y * 2 ^ 116 / 2 ^ nx) : ℚ) := by
        exact_mod_cast h
      apply div_le_div_of_nonneg_right ?_ (by positivity)
      apply mul_le_mul_of_nonneg_right hq (by positivity)
    · -- `nx < ny`: the two values live in different binades.
      have hxupper : x * 2 ^ 64 < 2 ^ (128 + 1) := by
        calc x * 2 ^ 64 ≤ 2 ^ 64 * 2 ^ 64 := by nlinarith
          _ < 2 ^ 129 := by norm_num
      have hxlt : x * 2 ^ 64 < 2 ^ (nx + 1) := lt_pow_natFloorLog2_succ 128 _ hxupper
      have hsxlt : x * 2 ^ 116 / 2 ^ nx < 2 ^ 53 := by
        rw [div_lt_iff (by positivity)]
        calc x * 2 ^ 116 = (x * 2 ^ 64) * 2 ^ 52 := by ring
          _ < 2 ^ (nx + 1) * 2 ^ 52 := by
              exact mul_lt_mul_of_pos_right hxlt (by positivity)
          _ = 2 ^ 53 * 2 ^ nx := by ring
      have hrx : rhe (x * 2 ^ 116 / 2 ^ nx) ≤ 2 ^ 53 :=
        rhe_le_of_lt _ (by positivity) (by exact_mod_cast hsxlt)
      have hny0 : 0 < ny := by omega
      have hylower : (2 : ℚ) ^ ny ≤ y * 2 ^ 64 := pow_natFloorLog2_le 128 _ hny0
      have hsyge : (2 : ℚ) ^ 52 ≤ y * 2 ^ 116 / 2 ^ ny := by
        rw [le_div_iff (by positivity)]
        calc (2 : ℚ) ^ 52 * 2 ^ ny = 2 ^ ny * 2 ^ 52 := by ring
          _ ≤ (y * 2 ^ 64) * 2 ^ 52 := by
              exact mul_le_mul_of_nonneg_right hylower (by positivity)
          _ = y * 2 ^ 116 := by ring
      have hry : (2 ^ 52 : ℤ) ≤ rhe (y * 2 ^ 116 / 2 ^ ny) :=
        le_rhe_of_le _ (by positivity) (by exact_mod_cast hsyge)
      have hpow : (2 : ℚ) ^ 53 * 2 ^ nx ≤ 2 ^ 52 * 2 ^ ny := by
        have h1 : (2 : ℚ) ^ (53 + nx) ≤ 2 ^ (52 + ny) :=
          pow_le_pow_right (by norm_num) (by omega)
        calc (2 : ℚ) ^ 53 * 2 ^ nx = 2 ^ (53 + nx) := by rw [pow_add]
          _ ≤ 2 ^ (52 + ny) := h1
          _ = 2 ^ 52 * 2 ^ ny := by rw [pow_add]
      calc (rhe (x * 2 ^ 116 / 2 ^ nx) : ℚ) * 2 ^ nx / 2 ^ 116
          ≤ 2 ^ 53 * 2 ^ nx / 2 ^ 116 := by
            apply div_le_div_of_nonneg_right ?_ (by positivity)
            apply mul_le_mul_of_nonneg_right (by exact_mod_cast hrx) (by positivity)
        _ ≤ 2 ^ 52 * 2 ^ ny / 2 ^ 116 := by
            exact div_le_div_of_nonneg_right hpow (by positivity)
        _ ≤ (rhe (y * 2 ^ 116 / 2 ^ ny) : ℚ) * 2 ^ ny / 2 ^ 116 := by
            apply div_le_div_of_nonneg_right ?_ (by positivity)
            apply mul_le_mul_of_nonneg_right (by exact_mod_cast hry) (by positivity)

theorem fl_le_two_mul_add_one (q : ℚ) (hq0 : 0 ≤ q) (hq : q ≤ 2 ^ 64) :
    fl q ≤ 2 * q + 1 := by
  unfold fl
  split_ifs with h
  · linarith
  · push_neg at h
    set n := natFloorLog2 128 (q * 2 ^ 64) with hn
    by_cases hpos : 0 < n
    · have hlow : (2 : ℚ) ^ n ≤ q * 2 ^ 64 := pow_natFloorLog2_le 128 _ hpos
      have hupper : q * 2 ^ 64 < 2 ^ (128 + 1) := by
        calc q * 2 ^ 64 ≤ 2 ^ 64 * 2 ^ 64 := by nlinarith
          _ < 2 ^ 129 := by norm_num
      have hlt : q * 2 ^ 64 < 2 ^ (n + 1) := lt_pow_natFloorLog2_succ 128 _ hupper
      have hslt : q * 2 ^ 116 / 2 ^ n < 2 ^ 53 := by
        rw [div_lt_iff (by positivity)]
        calc q * 2 ^ 116 = (q * 2 ^ 64) * 2 ^ 52 := by ring
          _ < 2 ^ (n + 1) * 2 ^ 52 := mul_lt_mul_of_pos_right hlt (by positivity)
          _ = 2 ^ 53 * 2 ^ n := by ring
      have hr : rhe (q * 2 ^ 116 / 2 ^ n) ≤ 2 ^ 53 :=
        rhe_le_of_lt _ (by positivity) (by exact_mod_cast hslt)
      have h2n : (2 : ℚ) ^ n ≤ q * 2 ^ 64 := hlow
      calc (rhe (q * 2 ^ 116 / 2 ^ n) : ℚ) * 2 ^ n / 2 ^ 116
          ≤ 2 ^ 53 * 2 ^ n / 2 ^ 116 := by
            apply div_le_div_of_nonneg_right ?_ (by positivity)
            apply mul_le_mul_of_nonneg_right (by exact_mod_cast hr) (by positivity)
        _ = 2 * ((2 : ℚ) ^ n / 2 ^ 64) := by ring
        _ ≤ 2 * q := by
            have : (2 : ℚ) ^ n / 2 ^ 64 ≤ q := by
              rw [div_le_iff (by positivity)]
              exact h2n
            linarith
        _ ≤ 2 * q + 1 := by linarith
    · have hn0 : n = 0 := by omega
      rw [hn0]
      have hs : (0 : ℚ) ≤ q * 2 ^ 116 / 2 ^ 0 := by positivity
      have h1 : rhe (q * 2 ^ 116 / 2 ^ 0) ≤ ⌊q * 2 ^ 116 / 2 ^ 0⌋ + 1 :=
        rhe_le_floor_add_one _ hs
      have h2 : (⌊q * 2 ^ 116 / 2 ^ 0⌋ : ℚ) ≤ q * 2 ^ 116 / 2 ^ 0 := Int.floor_le _
      have h3 : (rhe (q * 2 ^ 116 / 2 ^ 0) : ℚ) ≤ q * 2 ^ 116 / 2 ^ 0 + 1 := by
        have h1q : ((rhe (q * 2 ^ 116 / 2 ^ 0) : ℤ) : ℚ)
            ≤ ((⌊q * 2 ^ 116 / 2 ^ 0⌋ + 1 : ℤ) : ℚ) := by exact_mod_cast h1
        push_cast at h1q
        linarith
      calc (rhe (q * 2 ^ 116 / 2 ^ 0) : ℚ) * 2 ^ 0 / 2 ^ 116
          ≤ (q * 2 ^ 116 / 2 ^ 0 + 1) * 2 ^ 0 / 2 ^ 116 := by
            apply div_le_div_of_nonneg_right ?_ (by positivity)
            apply mul_le_mul_of_nonneg_right h3 (by positivity)
        _ = q + 1 / 2 ^ 116 := by ring
        _ ≤ 2 * q + 1 := by
            have : (1 : ℚ) / 2 ^ 116 ≤ 1 := by norm_num
            linarith

/-! ## Lemmas about the brightness pipeline -/

theorem goTruncToInt_nonneg (q : ℚ) (h : 0 ≤ q) : 0 ≤ goTruncToInt q := by
  unfold goTruncToInt
  rw [if_neg (not_lt.mpr h), ratFloorNonneg_eq_floor q h]
  exact Int.floor_nonneg.mpr h

theorem goTruncToInt_mono {x y : ℚ} (hx : 0 ≤ x) (hxy : x ≤ y) :
    goTruncToInt x ≤ goTruncToInt y := by
  have hy : 0 ≤ y := le_trans hx hxy
  unfold goTruncToInt
  rw [if_neg (not_lt.mpr hx), if_neg (not_lt.mpr hy),
    ratFloorNonneg_eq_floor x hx, ratFloorNonneg_eq_floor y hy]
  exact Int.floor_le_floor hxy

theorem glyphIndex_nonneg (L : ℚ) (h : 0 ≤ L) : 0 ≤ glyphIndex L := by
  have h0 : 0 ≤ goTruncToInt (goMul L 9) := goTruncToInt_nonneg _ (fl_nonneg _)
  unfold glyphIndex
  dsimp only
  split_ifs <;> omega

theorem glyphIndex_le_nine (L : ℚ) : glyphIndex L ≤ 9 := by
  have h0 := Int.le_refl (goTruncToInt (goMul L 9))
  unfold glyphIndex
  dsimp only
  split_ifs with h <;> omega

theorem glyphIndex_mono {x y : ℚ} (hx : 0 ≤ x) (hxy : x ≤ y) (hy : y ≤ 2 ^ 60) :
    glyphIndex x ≤ glyphIndex y := by
  have hm : goTruncToInt (goMul x 9) ≤ goTruncToInt (goMul y 9) := by
    apply goTruncToInt_mono (fl_nonneg _)
    unfold goMul
    apply fl_mono (by positivity) (by nlinarith)
    nlinarith [hy]
  unfold glyphIndex
  dsimp only
  split_ifs <;> omega

theorem c0299_le : c0299 ≤ 3 := by
  have h := fl_le_two_mul_add_one (299 / 1000) (by norm_num) (by norm_num)
  unfold c0299
  linarith

theorem c0587_le : c0587 ≤ 3 := by
  have h := fl_le_two_mul_add_one (587 / 1000) (by norm_num) (by norm_num)
  unfold c0587
  linarith

theorem c0114_le : c0114 ≤ 3 := by
  have h := fl_le_two_mul_add_one (114 / 1000) (by norm_num) (by norm_num)
  unfold c0114
  linarith

theorem goMul_nat_mono (c : ℚ) (hc0 : 0 ≤ c) (hc3 : c ≤ 3) {k j : ℕ}
    (hkj : k ≤ j) (hj : j ≤ 255) : goMul c k ≤ goMul c j := by
  unfold goMul
  apply fl_mono
  · positivity
  · exact mul_le_mul_of_nonneg_left (by exact_mod_cast hkj) hc0
  · have hj' : (j : ℚ) ≤ 255 := by exact_mod_cast hj
    calc c * j ≤ 3 * 255 := by nlinarith
      _ ≤ 2 ^ 64 := by norm_num

theorem goMul_nat_le (c : ℚ) (hc0 : 0 ≤ c) (hc3 : c ≤ 3) (k : ℕ) (hk : k ≤ 255) :
    goMul c k ≤ 1531 := by
  unfold goMul
  have hk' : (k : ℚ) ≤ 255 := by exact_mod_cast hk
  have hck : c * k ≤ 765 := by nlinarith
  have h := fl_le_two_mul_add_one (c * k) (by positivity) (by nlinarith)
  linarith

/-! ## Claim theorems: glyph renderer arithmetic -/

/-- C2: for every luminance value `L` in `[0, 1]`, the glyph index computed
by `brightnessToASCII` lies within `[0, 9]` inclusive, so the returned glyph
is always one of the 10 gradient characters (no out-of-range panic). -/
theorem glyphIndex_in_range (L : ℚ) (h0 : 0 ≤ L) (h1 : L ≤ 1) :
    0 ≤ glyphIndex L ∧ glyphIndex L ≤ 9 ∧
      brightnessToASCII L = some (ASCII_CHARS.getD (glyphIndex L).toNat ' ') ∧
      ASCII_CHARS.getD (glyphIndex L).toNat ' ' ∈ ASCII_CHARS := by
  have hnn := glyphIndex_nonneg L h0
  have h9 := glyphIndex_le_nine L
  refine ⟨hnn, h9, ?_, ?_⟩
  · unfold brightnessToASCII
    rw [if_neg (not_lt.mpr hnn)]
  · have hb : ∀ k : ℕ, k < 10 → ASCII_CHARS.getD k ' ' ∈ ASCII_CHARS := by decide
    exact hb _ (by omega)

/-- Witness for C2 at the boundary luminances `L = 0` and `L = 1`. -/
theorem glyphIndex_in_range_witness :
    (0 ≤ glyphIndex 0 ∧ glyphIndex 0 ≤ 9 ∧
        brightnessToASCII 0 = some (ASCII_CHARS.getD (glyphIndex 0).toNat ' ') ∧
        ASCII_CHARS.getD (glyphIndex 0).toNat ' ' ∈ ASCII_CHARS) ∧
      (0 ≤ glyphIndex 1 ∧ glyphIndex 1 ≤ 9 ∧
        brightnessToASCII 1 = some (ASCII_CHARS.getD (glyphIndex 1).toNat ' ') ∧
        ASCII_CHARS.getD (glyphIndex 1).toNat ' ' ∈ ASCII_CHARS) :=
  ⟨glyphIndex_in_range 0 (by decide) (by decide),
    glyphIndex_in_range 1 (by decide) (by decide)⟩

set_option maxRecDepth 1000000

/-- C5: under the program's float64 arithmetic, the pixel (255,255,255) has
luminance exactly 1, clamped glyph index 9, and renders as the last gradient
glyph `'@'`; the pixel (0,0,0) has luminance 0, index 0, and renders as the
first glyph, a space. -/
theorem white_black_pixel_eval :
    brightness 255 255 255 = 1 ∧
      glyphIndex (brightness 255 255 255) = 9 ∧
      brightnessToASCII (brightness 255 255 255) = some '@' ∧
      ASCII_CHARS.getLast? = some '@' ∧
      brightness 0 0 0 = 0 ∧
      glyphIndex (brightness 0 0 0) = 0 ∧
      brightnessToASCII (brightness 0 0 0) = some ' ' ∧
      ASCII_CHARS.head? = some ' ' := by
  refine ⟨?_, ?_, ?_, ?_, ?_, ?_, ?_, ?_⟩ <;> with_unfolding_all rfl

/-- C6: the computed luminance is monotone non-decreasing in the channels:
whenever every channel of one pixel is ≥ the corresponding channel of
another, its luminance and its glyph index are ≥ as well (specializing all
but one channel to be equal gives per-channel monotonicity). -/
theorem brightness_glyphIndex_monotone (r1 g1 b1 r2 g2 b2 : ℕ)
    (hr2 : r2 ≤ 255) (hg2 : g2 ≤ 255) (hb2 : b2 ≤ 255)
    (hr : r1 ≤ r2) (hg : g1 ≤ g2) (hb : b1 ≤ b2) :
    brightness r1 g1 b1 ≤ brightness r2 g2 b2 ∧
      glyphIndex (brightness r1 g1 b1) ≤ glyphIndex (brightness r2 g2 b2) := by
  have hA : goMul c0299 r1 ≤ goMul c0299 r2 :=
    goMul_nat_mono _ (fl_nonneg _) c0299_le hr hr2
  have hB : goMul c0587 g1 ≤ goMul c0587 g2 :=
    goMul_nat_mono _ (fl_nonneg _) c0587_le hg hg2
  have hC : goMul c0114 b1 ≤ goMul c0114 b2 :=
    goMul_nat_mono _ (fl_nonneg _) c0114_le hb hb2
  have hA10 : 0 ≤ goMul c0299 r1 := fl_nonneg _
  have hB10 : 0 ≤ goMul c0587 g1 := fl_nonneg _
  have hC10 : 0 ≤ goMul c0114 b1 := fl_nonneg _
  have hA20 : 0 ≤ goMul c0299 r2 := fl_nonneg _
  have hB20 : 0 ≤ goMul c0587 g2 := fl_nonneg _
  have hC20 : 0 ≤ goMul c0114 b2 := fl_nonneg _
  have hA2u : goMul c0299 r2 ≤ 1531 := goMul_nat_le _ (fl_nonneg _) c0299_le r2 hr2
  have hB2u : goMul c0587 g2 ≤ 1531 := goMul_nat_le _ (fl_nonneg _) c0587_le g2 hg2
  have hC2u : goMul c0114 b2 ≤ 1531 := goMul_nat_le _ (fl_nonneg _) c0114_le b2 hb2
  have hS : goAdd (goMul c0299 r1) (goMul c0587 g1)
      ≤ goAdd (goMul c0299 r2) (goMul c0587 g2) := by
    unfold goAdd
    apply fl_mono (add_nonneg hA10 hB10) (add_le_add hA hB)
    calc goMul c0299 r2 + goMul c0587 g2 ≤ 1531 + 1531 := add_le_add hA2u hB2u
      _ ≤ 2 ^ 64 := by norm_num
  have hS10 : 0 ≤ goAdd (goMul c0299 r1) (goMul c0587 g1) := fl_nonneg _
  have hS2u : goAdd (goMul c0299 r2) (goMul c0587 g2) ≤ 6125 := by
    unfold goAdd
    have hbound : goMul c0299 r2 + goMul c0587 g2 ≤ 2 ^ 64 := by
      have hn : (1531 : ℚ) + 1531 ≤ 2 ^ 64 := by norm_num
      linarith
    have h := fl_le_two_mul_add_one (goMul c0299 r2 + goMul c0587 g2)
      (add_nonneg hA20 hB20) hbound
    linarith
  have hT : goAdd (goAdd (goMul c0299 r1) (goMul c0587 g1)) (goMul c0114 b1)
      ≤ goAdd (goAdd (goMul c0299 r2) (goMul c0587 g2)) (goMul c0114 b2) := by
    unfold goAdd
    apply fl_mono (add_nonneg hS10 hC10) (add_le_add hS hC)
    calc goAdd (goMul c0299 r2) (goMul c0587 g2) + goMul c0114 b2
        ≤ 6125 + 1531 := add_le_add hS2u hC2u
      _ ≤ 2 ^ 64 := by norm_num
  have hT10 : 0 ≤ goAdd (goAdd (goMul c0299 r1) (goMul c0587 g1)) (goMul c0114 b1) :=
    fl_nonneg _
  have hS20 : 0 ≤ goAdd (goMul c0299 r2) (goMul c0587 g2) := fl_nonneg _
  have hT20 : 0 ≤ goAdd (goAdd (goMul c0299 r2) (goMul c0587 g2)) (goMul c0114 b2) :=
    fl_nonneg _
  have hT2u : goAdd (goAdd (goMul c0299 r2) (goMul c0587 g2)) (goMul c0114 b2)
      ≤ 15313 := by
    have hbound : goAdd (goMul c0299 r2) (goMul c0587 g2) + goMul c0114 b2 ≤ 2 ^ 64 := by
      have hn : (6125 : ℚ) + 1531 ≤ 2 ^ 64 := by norm_num
      linarith
    have h := fl_le_two_mul_add_one
      (goAdd (goMul c0299 r2) (goMul c0587 g2) + goMul c0114 b2)
      (add_nonneg hS20 hC20) hbound
    show fl (goAdd (goMul c0299 r2) (goMul c0587 g2) + goMul c0114 b2) ≤ 15313
    linarith
  have hBr : brightness r1 g1 b1 ≤ brightness r2 g2 b2 := by
    unfold brightness goDiv
    apply fl_mono (div_nonneg hT10 (by norm_num)) (div_le_div_of_nonneg_right hT (by norm_num))
    calc goAdd (goAdd (goMul c0299 r2) (goMul c0587 g2)) (goMul c0114 b2) / 255
        ≤ 15313 / 255 := div_le_div_of_nonneg_right hT2u (by norm_num)
      _ ≤ 2 ^ 64 := by norm_num
  refine ⟨hBr, ?_⟩
  apply glyphIndex_mono (fl_nonneg _) hBr
  show brightness r2 g2 b2 ≤ 2 ^ 60
  unfold brightness goDiv
  have h := fl_le_two_mul_add_one
    (goAdd (goAdd (goMul c0299 r2) (goMul c0587 g2)) (goMul c0114 b2) / 255)
    (div_nonneg hT20 (by norm_num))
    (by
      calc goAdd (goAdd (goMul c0299 r2) (goMul c0587 g2)) (goMul c0114 b2) / 255
          ≤ 15313 / 255 := div_le_div_of_nonneg_right hT2u (by norm_num)
        _ ≤ 2 ^ 64 := by norm_num)
  have h2 : goAdd (goAdd (goMul c0299 r2) (goMul c0587 g2)) (goMul c0114 b2) / 255
      ≤ 15313 / 255 := div_le_div_of_nonneg_right hT2u (by norm_num)
  calc fl (goAdd (goAdd (goMul c0299 r2) (goMul c0587 g2)) (goMul c0114 b2) / 255)
      ≤ 2 * (goAdd (goAdd (goMul c0299 r2) (goMul c0587 g2)) (goMul c0114 b2) / 255)
          + 1 := h
    _ ≤ 2 * (15313 / 255) + 1 := by linarith
    _ ≤ 2 ^ 60 := by norm_num

/-- Witness for C6 at the concrete pixel pair (10, 20, 30) ≤ (10, 20, 40). -/
theorem brightness_glyphIndex_monotone_witness :
    brightness 10 20 30 ≤ brightness 10 20 40 ∧
      glyphIndex (brightness 10 20 30) ≤ glyphIndex (brightness 10 20 40) :=
  brightness_glyphIndex_monotone 10 20 30 10 20 40
    (by decide) (by decide) (by decide) (by decide) (by decide) (by decide)

/-! ## Renderer determinism -/

theorem foldl_congr_mem {α β : Type} (l : List β) (f g : α → β → α) (a : α)
    (h : ∀ acc : α, ∀ b ∈ l, f acc b = g acc b) : l.foldl f a = l.foldl g a := by
  induction l generalizing a with
  | nil => rfl
  | cons x xs ih =>
    rw [List.foldl_cons, List.foldl_cons, h a x (List.mem_cons_self x xs)]
    exact ih _ fun acc b hb => h acc b (List.mem_cons_of_mem x hb)

theorem rowString_congr (img1 img2 : GoImage) (hw : img1.width = img2.width)
    (y : Nat) (hpix : ∀ x, x < img1.width → img1.pix x y = img2.pix x y) :
    rowString img1 y = rowString img2 y := by
  unfold rowString
  rw [← hw]
  have h : (List.range img1.width).foldl
        (fun acc x => do
          let s ← acc
          let ps ← pixelString (img1.pix x y)
          pure (s ++ ps)) (some "")
      = (List.range img1.width).foldl
        (fun acc x => do
          let s ← acc
          let ps ← pixelString (img2.pix x y)
          pure (s ++ ps)) (some "") := by
    apply foldl_congr_mem
    intro acc x hx
    rw [hpix x (List.mem_range.mp hx)]
  rw [h]

/-- C7: rendering is a pure, deterministic function of the pixel grid: two
images of the same geometry whose pixel functions agree on every in-bounds
coordinate render to byte-identical text, whatever the pixel functions do
elsewhere; no other state enters the computation. -/
theorem frameToASCII_deterministic (img1 img2 : GoImage)
    (hw : img1.width = img2.width) (hh : img1.height = img2.height)
    (hpix : ∀ x y, x < img1.width → y < img1.height → img1.pix x y = img2.pix x y) :
    frameToASCII img1 = frameToASCII img2 := by
  unfold frameToASCII
  rw [← hh]
  apply foldl_congr_mem
  intro acc y hy
  rw [rowString_congr img1 img2 hw y fun x hx => hpix x y hx (List.mem_range.mp hy)]

/-- Witness for C7: a constant-white 1×1 image and a 1×1 image whose pixel
function is defined by a different expression agreeing at the only in-bounds
coordinate render identically. -/
theorem frameToASCII_deterministic_witness :
    frameToASCII { width := 1, height := 1, pix := fun _ _ => ⟨255, 255, 255, 255⟩ }
      = frameToASCII
          { width := 1, height := 1
            pix := fun x _ => if x = 0 then ⟨255, 255, 255, 255⟩ else ⟨0, 0, 0, 0⟩ } :=
  frameToASCII_deterministic _ _ rfl rfl
    (by
      intro x y hx hy
      have hx1 : x < 1 := hx
      have hx0 : x = 0 := by omega
      subst hx0
      rfl)

end Monoscope
